import Mathlib

/-!
Verification of the TVM C++ time-evaluator harness (`src/main.cc`).

The program is a command-line orchestration tool: it parses `name:path`
arguments into a named-input mapping, loads a compiled model module, and
either benchmarks the executor (no named inputs) or loads the input files
into tensors and runs one inference.  This file gives a shallow embedding
of the logic owned by the repository — the dtype table, the per-input
tensor-loading procedure (as an event trace), the benchmark invocation,
the verbose output loop, and argument parsing — and proves the stated
properties about them.
-/

namespace TvmTimeEval

/-! ## Data model: `DLDataType` and the dtype table (main.cc lines 41-45) -/

/-- `DLDataType` from dlpack: a type code, a bit width and a lane count.
A value-initialized (C++ default) `DLDataType` is `⟨0, 0, 0⟩`. -/
structure DLDataType where
  code : Nat
  bits : Nat
  lanes : Nat
deriving DecidableEq, Repr

/-- dlpack type code `kDLInt = 0`. -/
def kDLInt : Nat := 0

/-- dlpack type code `kDLUInt = 1`. -/
def kDLUInt : Nat := 1

/-- dlpack type code `kDLFloat = 2`. -/
def kDLFloat : Nat := 2

/-- The contents of the static `dtype_map` initialized at main.cc lines 41-45:
find a key, returning `none` when the key is absent from the map. -/
def dtype_map_find : String → Option DLDataType
  | "float32" => some ⟨kDLFloat, 32, 1⟩
  | "float16" => some ⟨kDLFloat, 16, 1⟩
  | "int8" => some ⟨kDLInt, 8, 1⟩
  | "uint8" => some ⟨kDLUInt, 8, 1⟩
  | "int16" => some ⟨kDLInt, 16, 1⟩
  | "uint16" => some ⟨kDLUInt, 16, 1⟩
  | _ => none

/-- The access `dtype_map[dtype_info[name]]` at main.cc line 52 uses
`std::unordered_map::operator[]`, which value-initializes and returns
`DLDataType{0, 0, 0}` when the key is missing instead of failing. -/
def dtype_map_bracket (s : String) : DLDataType :=
  (dtype_map_find s).getD ⟨0, 0, 0⟩

/-- `std::accumulate(shape.begin(), shape.end(), 1, std::multiplies<size_t>())`
at main.cc line 54: left fold of multiplication over the dimensions. -/
def shape_product (shape : List Nat) : Nat :=
  shape.foldl (fun a b => a * b) 1

/-! ## The tensor loader (loop body of `inference`, main.cc lines 47-64)

The body of the per-input loop is embedded as a function from the file
contents (`none` when the path does not exist or is not a regular file)
to the trace of observable events it performs, in program order, together
with a flag telling whether the iteration completed.  A failed `ICHECK`
aborts the process, so the trace simply stops at the failed check. -/

/-- Observable events of one tensor-loading iteration, in the order the
source performs them. -/
inductive Event where
  | check_file (path : String) (ok : Bool)
  | open_file (path : String)
  | alloc_empty (shape : List Nat) (dtype : DLDataType)
  | read_buffer (path : String) (bytes : List UInt8)
  | length_check (actual expected : Nat) (ok : Bool)
  | copy_from_bytes (content : List UInt8)
  | set_input (name : String) (content : List UInt8)
deriving DecidableEq, Repr

/-- One iteration of the loop at main.cc lines 47-64 for the named input
`(name, path)` with descriptor data `shape` and `dtype_str`.  `file` is the
byte content of `path`, or `none` when the path is missing or not a regular
file (the `ICHECK` at line 48 then fails).  Program order: existence check
(48), expected-size computation (54), `ifstream` open (56),
`NDArray::Empty` allocation (57), buffer read (58), `ICHECK_EQ` length
check (59), `CopyFromBytes` (60), `set_input` (63).  Returns the event
trace and `true` iff the iteration ran to completion. -/
def load_one_input (file : Option (List UInt8)) (name path : String)
    (shape : List Nat) (dtype_str : String) : List Event × Bool :=
  match file with
  | none => ([Event.check_file path false], false)
  | some bytes =>
    let dtype := dtype_map_bracket dtype_str
    let input_size := shape_product shape * (dtype.bits / 8)
    let pre := [Event.check_file path true, Event.open_file path,
                Event.alloc_empty shape dtype, Event.read_buffer path bytes]
    if bytes.length = input_size then
      (pre ++ [Event.length_check bytes.length input_size true,
               Event.copy_from_bytes (bytes.take input_size),
               Event.set_input name (bytes.take input_size)], true)
    else
      (pre ++ [Event.length_check bytes.length input_size false], false)

/-! ## A generic counting loop

`for_loop f n i` embeds `for (; i < n; i++) out.push(f(i));`, used for the
argument-gathering loops of `evaluate` (main.cc lines 110-121) and the row
loop of the verbose printer (line 78). -/

/-- The list produced by a C-style loop running `f` on `i, i+1, ..., n-1`. -/
def for_loop (f : Nat → α) (n i : Nat) : List α :=
  if h : i < n then f i :: for_loop f n (i + 1) else []
termination_by n - i

/-! ## Verbose output (main.cc lines 73-85)

When the environment variable `cpp_bench_debug` equals `"ON"`, `inference`
prints the flattened output in rows: the outer loop runs
`for (i = 0; i < output_num / 10; i++)`, prints the row header
`[i*10 - (i+1)*10-1]`, and the inner loop runs
`for (j = 0; j < 10 && i*10+j < output_num; j++)` printing element
`i*10+j` to three decimal places.  Element values are abstracted as a
function `data : Nat → ℚ` from flat index to printed value. -/

/-- The inner loop at main.cc line 80: values printed in row `i`, starting
at column `j`, for an output with `N` flattened elements. -/
def output_row (data : Nat → ℚ) (N i j : Nat) : List ℚ :=
  if _h : j < 10 ∧ i * 10 + j < N then
    data (i * 10 + j) :: output_row data N i (j + 1)
  else []
termination_by 10 - j

/-- One printed row: the header indices `lo`/`hi` from
`printf("[%5d - %-5d]: ", i*10, (i+1)*10-1)` and the printed values. -/
structure VerboseRow where
  lo : Nat
  hi : Nat
  values : List ℚ
deriving DecidableEq, Repr

/-- The rows printed by the loop at main.cc lines 78-84: the outer loop
counts `i` from `0` to `output_num / 10 - 1`. -/
def verbose_rows (data : Nat → ℚ) (N : Nat) : List VerboseRow :=
  for_loop (fun i => ⟨i * 10, (i + 1) * 10 - 1, output_row data N i 0⟩) (N / 10) 0

/-- All values printed by the verbose output, flattened in print order. -/
def verbose_values (data : Nat → ℚ) (N : Nat) : List ℚ :=
  ((verbose_rows data N).map VerboseRow.values).flatten

/-! ## The benchmark runner `evaluate` (main.cc lines 88-128) -/

/-- The timing request `evaluate` makes: `runtime.RPCTimeEvaluator` is
called with `(gmod, "run", dev.device_type, dev.device_id, 10, 1, 500, "")`
(main.cc lines 97-100) and the resulting packed function is called once
with the flat argument list (line 124).  Tensor handles are abstracted as
naturals. -/
structure TimeEvalCall where
  func_name : String
  device_type : Nat
  device_id : Nat
  number : Nat
  repeat_count : Nat
  min_repeat_ms : Nat
  f_preproc : String
  flat_args : List Nat
deriving DecidableEq, Repr

/-- What `evaluate` does, observably: the timing calls it makes and the
value it prints. -/
structure EvaluateTrace where
  calls : List TimeEvalCall
  printed_ms : ℚ
deriving DecidableEq, Repr

/-- Embedding of `evaluate` (main.cc lines 88-128).  `get_input` and
`get_output` give the live handle for each input/output slot;
`mean_seconds` is `results_arr[0]`, the first double of the blob the
timing call returns.  The two loops at lines 110-121 fill the flat
argument array with all input handles and then all output handles; the
result is printed multiplied by 1000 (line 127). -/
def evaluate (device_type device_id : Nat) (num_inputs num_outputs : Nat)
    (get_input get_output : Nat → Nat) (mean_seconds : ℚ) : EvaluateTrace :=
  let flat_args := for_loop get_input num_inputs 0 ++ for_loop get_output num_outputs 0
  { calls := [{ func_name := "run", device_type := device_type,
                device_id := device_id, number := 10, repeat_count := 1,
                min_repeat_ms := 500, f_preproc := "",
                flat_args := flat_args }],
    printed_ms := mean_seconds * 1000 }

/-! ## Mode dispatch (`DeployGraphExecutor`, main.cc lines 130-142) -/

/-- Which path `DeployGraphExecutor` takes after loading the module. -/
inductive Mode where
  | benchmark
  | infer
deriving DecidableEq, Repr

/-- The dispatch at main.cc lines 138-141: `if (input_paths.empty())
evaluate(gmod, dev); else inference(gmod, input_paths, dev);`. -/
def DeployGraphExecutor_mode (input_paths : List (List Char × List Char)) : Mode :=
  if input_paths.isEmpty then Mode.benchmark else Mode.infer

/-! ## Argument parsing (`main`, main.cc lines 144-159)

Arguments are embedded as `List Char` (C++ `std::string`).  The named-input
mapping `std::unordered_map<std::string, std::string>` is embedded as an
association list with overwrite-on-insert, which realizes the same
observable lookup behavior. -/

/-- `tmp.find(":")` at main.cc line 153: index of the first colon, `none`
for `std::string::npos`. -/
def find_colon : List Char → Option Nat
  | [] => none
  | c :: rest => if c = ':' then some 0 else (find_colon rest).map (fun k => k + 1)

/-- Lines 153-155: find the first colon (fatal `ICHECK_NE` against `npos`
when there is none, hence `none`), then split into
`(tmp.substr(0, center), tmp.substr(center + 1))`. -/
def split_arg (s : List Char) : Option (List Char × List Char) :=
  match find_colon s with
  | none => none
  | some center => some (s.take center, s.drop (center + 1))

/-- `input_paths[key] = value` on the `unordered_map`: overwrite the
binding when the key is present, insert it otherwise. -/
def map_insert (m : List (List Char × List Char)) (k v : List Char) :
    List (List Char × List Char) :=
  match m with
  | [] => [(k, v)]
  | (k', v') :: rest =>
    if k' = k then (k, v) :: rest else (k', v') :: map_insert rest k v

/-- Lookup in the embedded mapping. -/
def map_lookup (m : List (List Char × List Char)) (k : List Char) :
    Option (List Char) :=
  match m with
  | [] => none
  | (k', v') :: rest => if k' = k then some v' else map_lookup rest k

/-- The loop at main.cc lines 151-156: process the arguments after the
module path left to right, splitting each at its first colon and inserting
into the mapping; a missing colon is a fatal `ICHECK` (`none`). -/
def parse_inputs (acc : List (List Char × List Char)) :
    List (List Char) → Option (List (List Char × List Char))
  | [] => some acc
  | a :: rest =>
    match split_arg a with
    | none => none
    | some (n, p) => parse_inputs (map_insert acc n p) rest

/-- Outcome of `main` up to the point where `DeployGraphExecutor` takes
over.  `deployed` records the module path, the parsed mapping and the mode
taken; module loading and input-file I/O happen only inside the `deployed`
branch (main.cc line 158 and below). -/
inductive MainResult where
  | usage_error
  | format_error
  | deployed (module_path : List Char) (input_paths : List (List Char × List Char))
      (mode : Mode)
deriving DecidableEq, Repr

/-- Embedding of `main` (main.cc lines 144-159): `ICHECK_GE(argc, 2)`,
then the parsing loop, then `DeployGraphExecutor(module_path, input_paths)`. -/
def main_model : List (List Char) → MainResult
  | _prog :: module_path :: args =>
    match parse_inputs [] args with
    | none => MainResult.format_error
    | some m => MainResult.deployed module_path m (DeployGraphExecutor_mode m)
  | _ => MainResult.usage_error

/-- Modelled from the spec: the path of the LAST argument in argv order
whose name part equals `name` ("ties broken by last one wins on duplicate
names").  Used only to compare the parser's mapping against the spec's
description. -/
def spec_last_wins (args : List (List Char)) (name : List Char) :
    Option (List Char) :=
  args.foldl
    (fun acc a =>
      match split_arg a with
      | some (n, p) => if n = name then some p else acc
      | none => acc)
    none

/-! ## Helper lemmas -/

/-- A counting loop from `i` enumerates `f` over `range' i (n - i)`. -/
theorem for_loop_eq_aux {α : Type} (f : Nat → α) :
    ∀ (k n i : Nat), n - i = k → for_loop f n i = (List.range' i k).map f := by
  intro k
  induction k with
  | zero =>
    intro n i h
    unfold for_loop
    rw [dif_neg (by omega)]
    simp
  | succ k ih =>
    intro n i h
    unfold for_loop
    rw [dif_pos (by omega), ih n (i + 1) (by omega), List.range'_succ]
    simp

/-- A counting loop from `0` enumerates `f` over `range n`. -/
theorem for_loop_eq_range {α : Type} (f : Nat → α) (n : Nat) :
    for_loop f n 0 = (List.range n).map f := by
  rw [for_loop_eq_aux f n n 0 (by omega), List.range_eq_range']

/-- When row `i` fits entirely below `N`, the inner print loop starting at
column `j` prints exactly the elements `i*10+j, ..., i*10+9`. -/
theorem output_row_eq (data : Nat → ℚ) (N i : Nat) (hN : i * 10 + 10 ≤ N) :
    ∀ (k j : Nat), j + k = 10 →
      output_row data N i j = (List.range' (i * 10 + j) k).map data := by
  intro k
  induction k with
  | zero =>
    intro j h
    unfold output_row
    rw [dif_neg (by omega)]
    simp
  | succ k ih =>
    intro j h
    unfold output_row
    rw [dif_pos ⟨by omega, by omega⟩, ih (j + 1) (by omega), List.range'_succ]
    simp [Nat.add_assoc]

/-- Concatenating the rows `[i*10, ..., i*10+9]` for `i < k` gives the flat
index range `[0, ..., k*10 - 1]`. -/
theorem flatten_rows (k : Nat) :
    ((List.range k).map (fun i => List.range' (i * 10) 10)).flatten =
      List.range (k * 10) := by
  induction k with
  | zero => simp
  | succ k ih =>
    rw [List.range_succ, List.map_append, List.flatten_append, ih]
    simp only [List.map_cons, List.map_nil, List.flatten_cons, List.flatten_nil,
      List.append_nil]
    rw [List.range_eq_range', List.range_eq_range']
    have h := List.range'_append_1 0 (k * 10) 10
    simp only [Nat.zero_add] at h
    rw [h]
    congr 1
    ring

/-- `split_arg` computation rule on a cons cell. -/
theorem split_arg_cons (c : Char) (rest : List Char) :
    split_arg (c :: rest) =
      if c = ':' then some ([], rest)
      else (split_arg rest).map (fun q => (c :: q.1, q.2)) := by
  by_cases hc : c = ':'
  · simp [split_arg, find_colon, hc]
  · simp only [split_arg, find_colon, if_neg hc]
    cases h : find_colon rest with
    | none => simp
    | some k => simp [List.take_succ_cons, List.drop_succ_cons]

/-- An argument splits to `none` exactly when it has no colon. -/
theorem split_arg_eq_none (s : List Char) : split_arg s = none ↔ ':' ∉ s := by
  induction s with
  | nil => simp [split_arg, find_colon]
  | cons c rest ih =>
    rw [split_arg_cons]
    by_cases hc : c = ':'
    · subst hc
      simp
    · rw [if_neg hc, Option.map_eq_none', ih]
      simp only [List.mem_cons, not_or]
      constructor
      · intro h
        exact ⟨fun h1 => hc h1.symm, h⟩
      · intro h
        exact h.2

/-- `split_arg` splits at the FIRST colon: it returns `some (n, p)` exactly
when the argument is `n ++ ':' :: p` with no colon inside `n`. -/
theorem split_arg_eq_some :
    ∀ (s n p : List Char),
      split_arg s = some (n, p) ↔ (s = n ++ ':' :: p ∧ ':' ∉ n) := by
  intro s
  induction s with
  | nil =>
    intro n p
    constructor
    · intro h
      simp [split_arg, find_colon] at h
    · rintro ⟨h, -⟩
      exact absurd h (by simp)
  | cons c rest ih =>
    intro n p
    rw [split_arg_cons]
    by_cases hc : c = ':'
    · subst hc
      rw [if_pos rfl]
      constructor
      · intro h
        simp only [Option.some.injEq, Prod.mk.injEq] at h
        obtain ⟨h1, h2⟩ := h
        subst h1
        subst h2
        simp
      · rintro ⟨heq, hnotin⟩
        cases n with
        | nil =>
          simp only [List.nil_append, List.cons.injEq, true_and] at heq
          rw [heq]
        | cons d n' =>
          exfalso
          simp only [List.cons_append, List.cons.injEq] at heq
          refine hnotin ?_
          rw [heq.1]
          exact List.mem_cons_self d n'
    · rw [if_neg hc]
      constructor
      · intro h
        rcases Option.map_eq_some'.mp h with ⟨q, hsplit, heq⟩
        obtain ⟨n', p'⟩ := q
        simp only [Prod.mk.injEq] at heq
        obtain ⟨hn, hp⟩ := heq
        rw [hp] at hsplit
        obtain ⟨hrest, hnot⟩ := (ih n' p).mp hsplit
        subst hn
        refine ⟨by rw [hrest]; simp, ?_⟩
        simp only [List.mem_cons, not_or]
        exact ⟨fun h1 => hc h1.symm, hnot⟩
      · rintro ⟨heq, hnotin⟩
        cases n with
        | nil =>
          simp only [List.nil_append, List.cons.injEq] at heq
          exact absurd heq.1 hc
        | cons d n' =>
          simp only [List.cons_append, List.cons.injEq] at heq
          obtain ⟨hd, hrest⟩ := heq
          subst hd
          have hnot' : ':' ∉ n' := fun h2 => hnotin (List.mem_cons_of_mem _ h2)
          rw [Option.map_eq_some']
          exact ⟨(n', p), (ih n' p).mpr ⟨hrest, hnot'⟩, rfl⟩

/-- Looking up after an overwrite-insert: the inserted key maps to the new
value, every other key is unchanged. -/
theorem map_lookup_insert :
    ∀ (m : List (List Char × List Char)) (k v name : List Char),
      map_lookup (map_insert m k v) name =
        if k = name then some v else map_lookup m name
  | [], k, v, name => by
    simp only [map_insert, map_lookup]
  | (k', v') :: rest, k, v, name => by
    by_cases hk : k' = k
    · subst hk
      by_cases hn : k' = name
      · simp only [map_insert, if_pos rfl, map_lookup, if_pos hn]
      · simp only [map_insert, if_pos rfl, map_lookup, if_neg hn]
    · by_cases hn : k' = name
      · have hkn : k ≠ name := fun h => hk (hn.trans h.symm)
        simp only [map_insert, if_neg hk, map_lookup, if_pos hn, if_neg hkn]
      · simp only [map_insert, if_neg hk, map_lookup, if_neg hn]
        exact map_lookup_insert rest k v name

/-- If some argument has no colon, the parsing loop aborts with `none`
regardless of the mapping accumulated so far. -/
theorem parse_inputs_eq_none :
    ∀ (args : List (List Char)) (acc : List (List Char × List Char)),
      (∃ a ∈ args, ':' ∉ a) → parse_inputs acc args = none := by
  intro args
  induction args with
  | nil =>
    intro acc h
    rcases h with ⟨a, ha, -⟩
    exact absurd ha (by simp)
  | cons a rest ih =>
    intro acc h
    cases hs : split_arg a with
    | none => simp [parse_inputs, hs]
    | some q =>
      obtain ⟨n, p⟩ := q
      have hcolon : ':' ∈ a := by
        obtain ⟨heq, -⟩ := (split_arg_eq_some a n p).mp hs
        rw [heq]
        simp
      rcases h with ⟨a', ha', hnot⟩
      rcases List.mem_cons.mp ha' with h1 | h2
      · exact absurd hcolon (h1 ▸ hnot)
      · simp only [parse_inputs, hs]
        exact ih (map_insert acc n p) ⟨a', h2, hnot⟩

/-- `spec_last_wins` generalized over the starting value of the fold. -/
def last_wins_from (init : Option (List Char)) (args : List (List Char))
    (name : List Char) : Option (List Char) :=
  args.foldl
    (fun acc a =>
      match split_arg a with
      | some (n, p) => if n = name then some p else acc
      | none => acc)
    init

/-- When every argument has a colon, the parsing loop succeeds and the
final mapping looks up each name to the fold of the arguments over the
accumulated mapping's answer. -/
theorem parse_inputs_lookup :
    ∀ (args : List (List Char)) (acc : List (List Char × List Char)),
      (∀ a ∈ args, ':' ∈ a) →
      ∃ m, parse_inputs acc args = some m ∧
        ∀ name, map_lookup m name = last_wins_from (map_lookup acc name) args name := by
  intro args
  induction args with
  | nil =>
    intro acc _
    exact ⟨acc, rfl, fun name => rfl⟩
  | cons a rest ih =>
    intro acc h
    have ha : ':' ∈ a := h a (List.mem_cons_self a rest)
    obtain ⟨n, p, hsplit⟩ : ∃ n p, split_arg a = some (n, p) := by
      cases hs : split_arg a with
      | none => exact absurd ha ((split_arg_eq_none a).mp hs)
      | some q =>
        obtain ⟨n, p⟩ := q
        exact ⟨n, p, rfl⟩
    obtain ⟨m, hm, hlook⟩ :=
      ih (map_insert acc n p) (fun a' h' => h a' (List.mem_cons_of_mem a h'))
    refine ⟨m, by simp [parse_inputs, hsplit, hm], ?_⟩
    intro name
    rw [hlook name, map_lookup_insert]
    unfold last_wins_from
    rw [List.foldl_cons, hsplit]

/-! ## Claim theorems -/

/-- C1: the claim states that for a declared element-type string outside
{float32, float16, int8, uint8, int16, uint16} the Tensor Loader fails
with a clear "unsupported dtype" error rather than proceeding with a
garbage bit width, and that the mapping rejects every such string.  The
code violates this: `dtype_map[...]` at main.cc line 52 uses
`std::unordered_map::operator[]`, which value-initializes `DLDataType
{0, 0, 0}` for an unknown key.  For the declared dtype "float64" the table
has no entry, yet the loader proceeds with bit width 0 (expected byte size
0) and, with an empty input file, completes the iteration and binds the
tensor via `set_input` with no error at all. -/
theorem C1_unknown_dtype_proceeds_with_zero_width :
    dtype_map_find "float64" = none ∧
    dtype_map_bracket "float64" = ⟨0, 0, 0⟩ ∧
    (load_one_input (some []) "x" "x.bin" [2, 3] "float64").2 = true ∧
    Event.set_input "x" [] ∈
      (load_one_input (some []) "x" "x.bin" [2, 3] "float64").1 := by
  decide

/-- C2 counterexample: the claim states that all validation, in particular
the byte-length check, happens before a new Tensor is allocated.  At the
concrete input (1-byte file, shape `[1]`, dtype "float32") the byte-length
check fails, yet the `NDArray::Empty` allocation event is in the trace:
main.cc allocates at line 57, before the `ICHECK_EQ` at line 59. -/
theorem C2_counterexample_alloc_before_failed_validation :
    ¬ ((load_one_input (some [(0 : UInt8)]) "x" "x.bin" [1] "float32").2 = false →
       Event.alloc_empty [1] ⟨kDLFloat, 32, 1⟩ ∉
         (load_one_input (some [(0 : UInt8)]) "x" "x.bin" [1] "float32").1) := by
  decide

/-- C2 amended: when the byte length of the file differs from
`product(shape) * bits/8`, the loading iteration performs exactly the
existence check, the file open, the tensor allocation, the buffer read and
the failed length check — in that order — and stops: the tensor is
allocated before the byte-length validation, but no bytes are ever copied
into it and it is never bound via `set_input`. -/
theorem C2_amended_length_check_after_alloc_before_copy
    (file : List UInt8) (name path : String) (shape : List Nat)
    (dtype_str : String)
    (h : file.length ≠ shape_product shape * ((dtype_map_bracket dtype_str).bits / 8)) :
    load_one_input (some file) name path shape dtype_str =
      ([Event.check_file path true, Event.open_file path,
        Event.alloc_empty shape (dtype_map_bracket dtype_str),
        Event.read_buffer path file,
        Event.length_check file.length
          (shape_product shape * ((dtype_map_bracket dtype_str).bits / 8)) false],
       false) := by
  simp [load_one_input, h]

/-- Witness for C2 amended at the concrete input of the counterexample. -/
theorem C2_amended_witness :
    ([(0 : UInt8)].length ≠
      shape_product [1] * ((dtype_map_bracket "float32").bits / 8)) ∧
    load_one_input (some [(0 : UInt8)]) "x" "x.bin" [1] "float32" =
      ([Event.check_file "x.bin" true, Event.open_file "x.bin",
        Event.alloc_empty [1] (dtype_map_bracket "float32"),
        Event.read_buffer "x.bin" [(0 : UInt8)],
        Event.length_check [(0 : UInt8)].length
          (shape_product [1] * ((dtype_map_bracket "float32").bits / 8)) false],
       false) :=
  ⟨by decide,
   C2_amended_length_check_after_alloc_before_copy [(0 : UInt8)] "x" "x.bin"
     [1] "float32" (by decide)⟩

/-- C3: when the file's byte length differs from
`product(shape) * bitwidth(dtype)/8`, the iteration fails (the `ICHECK_EQ`
at main.cc line 59 aborts), no `CopyFromBytes` ever happens, and no
`set_input` ever happens — no partial state is handed to the executor. -/
theorem C3_length_mismatch_fails_before_copy_and_bind
    (file : List UInt8) (name path : String) (shape : List Nat)
    (dtype_str : String)
    (h : file.length ≠ shape_product shape * ((dtype_map_bracket dtype_str).bits / 8)) :
    (load_one_input (some file) name path shape dtype_str).2 = false ∧
    (∀ c, Event.copy_from_bytes c ∉
      (load_one_input (some file) name path shape dtype_str).1) ∧
    (∀ nm c, Event.set_input nm c ∉
      (load_one_input (some file) name path shape dtype_str).1) := by
  refine ⟨?_, ?_, ?_⟩
  · simp [load_one_input, h]
  · intro c
    simp [load_one_input, h]
  · intro nm c
    simp [load_one_input, h]

/-- Witness for C3: a 47-byte file against shape `[1, 3, 2, 2]` and dtype
"float32" (expected 48 bytes) fails without copying or binding. -/
theorem C3_witness :
    ((List.replicate 47 (0 : UInt8)).length ≠
      shape_product [1, 3, 2, 2] * ((dtype_map_bracket "float32").bits / 8)) ∧
    ((load_one_input (some (List.replicate 47 (0 : UInt8))) "x" "x.bin"
        [1, 3, 2, 2] "float32").2 = false ∧
     (∀ c, Event.copy_from_bytes c ∉
       (load_one_input (some (List.replicate 47 (0 : UInt8))) "x" "x.bin"
         [1, 3, 2, 2] "float32").1) ∧
     (∀ nm c, Event.set_input nm c ∉
       (load_one_input (some (List.replicate 47 (0 : UInt8))) "x" "x.bin"
         [1, 3, 2, 2] "float32").1)) :=
  ⟨by decide,
   C3_length_mismatch_fails_before_copy_and_bind
     (List.replicate 47 (0 : UInt8)) "x" "x.bin" [1, 3, 2, 2] "float32"
     (by decide)⟩

/-- C4: when the file's byte length equals
`product(shape) * bitwidth(dtype)/8`, the iteration completes and the byte
content copied into the tensor and bound via `set_input` is exactly the
source file's bytes — a round-trip identity with no transformation. -/
theorem C4_roundtrip_identity
    (file : List UInt8) (name path : String) (shape : List Nat)
    (dtype_str : String)
    (h : file.length = shape_product shape * ((dtype_map_bracket dtype_str).bits / 8)) :
    (load_one_input (some file) name path shape dtype_str).2 = true ∧
    Event.copy_from_bytes file ∈
      (load_one_input (some file) name path shape dtype_str).1 ∧
    Event.set_input name file ∈
      (load_one_input (some file) name path shape dtype_str).1 := by
  have htake :
      file.take (shape_product shape * ((dtype_map_bracket dtype_str).bits / 8)) =
        file := by
    rw [← h]
    exact List.take_length file
  refine ⟨?_, ?_, ?_⟩ <;> simp [load_one_input, h, htake]

/-- Witness for C4: a 48-byte file against shape `[1, 3, 2, 2]` and dtype
"float32" loads, and the bound content is the file's bytes. -/
theorem C4_witness :
    ((List.replicate 48 (7 : UInt8)).length =
      shape_product [1, 3, 2, 2] * ((dtype_map_bracket "float32").bits / 8)) ∧
    ((load_one_input (some (List.replicate 48 (7 : UInt8))) "x" "x.bin"
        [1, 3, 2, 2] "float32").2 = true ∧
     Event.copy_from_bytes (List.replicate 48 (7 : UInt8)) ∈
       (load_one_input (some (List.replicate 48 (7 : UInt8))) "x" "x.bin"
         [1, 3, 2, 2] "float32").1 ∧
     Event.set_input "x" (List.replicate 48 (7 : UInt8)) ∈
       (load_one_input (some (List.replicate 48 (7 : UInt8))) "x" "x.bin"
         [1, 3, 2, 2] "float32").1) :=
  ⟨by decide,
   C4_roundtrip_identity (List.replicate 48 (7 : UInt8)) "x" "x.bin"
     [1, 3, 2, 2] "float32" (by decide)⟩

/-- C5: `DeployGraphExecutor` (main.cc lines 138-141) takes the benchmark
path exactly when the named-input mapping is empty and the inference path
exactly when it is non-empty; the two paths are mutually exclusive. -/
theorem C5_mode_dispatch (input_paths : List (List Char × List Char)) :
    (DeployGraphExecutor_mode input_paths = Mode.benchmark ↔ input_paths = []) ∧
    (DeployGraphExecutor_mode input_paths = Mode.infer ↔ input_paths ≠ []) := by
  cases input_paths <;> simp [DeployGraphExecutor_mode]

/-- C6: in benchmark mode the timing utility is invoked exactly once, with
entry point "run", the protocol constants 10 / 1 / 500 ms and the default
timer (empty preprocessor string), receiving the handles of all input
slots followed by all output slots as a flat positional list, and the
mean-duration-in-seconds is printed multiplied by 1000. -/
theorem C6_benchmark_protocol (device_type device_id : Nat)
    (num_inputs num_outputs : Nat) (get_input get_output : Nat → Nat)
    (mean_seconds : ℚ) :
    (evaluate device_type device_id num_inputs num_outputs get_input
        get_output mean_seconds).calls =
      [⟨"run", device_type, device_id, 10, 1, 500, "",
        (List.range num_inputs).map get_input ++
          (List.range num_outputs).map get_output⟩] ∧
    (evaluate device_type device_id num_inputs num_outputs get_input
        get_output mean_seconds).printed_ms = mean_seconds * 1000 := by
  refine ⟨?_, rfl⟩
  simp [evaluate, for_loop_eq_range]

/-- C7: with the verbose toggle on, an output with `N` flattened elements
prints exactly `N / 10` rows; row `i` carries the header indices `i*10`
and `(i+1)*10 - 1` and exactly the 10 values at flat indices `i*10` to
`i*10+9`; overall exactly the first `(N / 10) * 10` elements are printed
and the trailing `N mod 10` are not; in particular 20 elements for
`N = 23`. -/
theorem C7_verbose_rows_of_ten (data : Nat → ℚ) (N : Nat) :
    verbose_rows data N =
      (List.range (N / 10)).map
        (fun i => ⟨i * 10, (i + 1) * 10 - 1, (List.range' (i * 10) 10).map data⟩) ∧
    verbose_values data N = (List.range (N / 10 * 10)).map data ∧
    (verbose_values data 23).length = 20 := by
  have hrows : ∀ M, verbose_rows data M =
      (List.range (M / 10)).map
        (fun i => ⟨i * 10, (i + 1) * 10 - 1, (List.range' (i * 10) 10).map data⟩) := by
    intro M
    rw [verbose_rows, for_loop_eq_range]
    apply List.map_congr_left
    intro i hi
    have hiM : i < M / 10 := List.mem_range.mp hi
    have hM : i * 10 + 10 ≤ M := by
      have h1 : (i + 1) * 10 ≤ M / 10 * 10 := Nat.mul_le_mul_right 10 (by omega)
      have h2 : M / 10 * 10 ≤ M := Nat.div_mul_le_self M 10
      omega
    have hr := output_row_eq data M i hM 10 0 rfl
    simp only [Nat.add_zero] at hr
    rw [hr]
  have hvals : ∀ M, verbose_values data M = (List.range (M / 10 * 10)).map data := by
    intro M
    rw [verbose_values, hrows M, List.map_map]
    have h1 : (((List.range (M / 10)).map (fun i => List.range' (i * 10) 10)).flatten).map data
        = ((List.range (M / 10)).map (fun i => (List.range' (i * 10) 10).map data)).flatten := by
      rw [List.map_flatten, List.map_map]
      rfl
    show ((List.range (M / 10)).map (fun i => (List.range' (i * 10) 10).map data)).flatten
        = (List.range (M / 10 * 10)).map data
    rw [← h1, flatten_rows]
  refine ⟨hrows N, hvals N, ?_⟩
  rw [hvals 23]
  simp

/-- C8: if any argument after the module path has no colon, `main` fails
at the `ICHECK_NE` (main.cc line 154) before `DeployGraphExecutor` runs —
so before any module is loaded or any input file is opened — and every
well-formed argument is split at its FIRST colon into a (name, path)
pair. -/
theorem C8_missing_colon_fatal_before_io (prog module_path : List Char)
    (args : List (List Char)) (h : ∃ a ∈ args, ':' ∉ a) :
    main_model (prog :: module_path :: args) = MainResult.format_error ∧
    ∀ s n p, split_arg s = some (n, p) ↔ (s = n ++ ':' :: p ∧ ':' ∉ n) := by
  refine ⟨?_, split_arg_eq_some⟩
  simp [main_model, parse_inputs_eq_none args [] h]

/-- Witness for C8: the colon-free argument "ab" is fatal. -/
theorem C8_witness :
    (∃ a ∈ ([['a', 'b']] : List (List Char)), ':' ∉ a) ∧
    (main_model [['p'], ['m'], ['a', 'b']] = MainResult.format_error ∧
     ∀ s n p, split_arg s = some (n, p) ↔ (s = n ++ ':' :: p ∧ ':' ∉ n)) :=
  ⟨by decide,
   C8_missing_colon_fatal_before_io ['p'] ['m'] [['a', 'b']] (by decide)⟩

/-- C9: when every argument is well-formed, parsing succeeds, and for each
name the mapping holds the path of the LAST argument in argv order whose
name part is that name (mapping insertion overwrites: last one wins). -/
theorem C9_duplicate_names_last_wins (args : List (List Char))
    (h : ∀ a ∈ args, ':' ∈ a) :
    ∃ m, parse_inputs [] args = some m ∧
      ∀ name, map_lookup m name = spec_last_wins args name := by
  obtain ⟨m, hm, hlook⟩ := parse_inputs_lookup args [] h
  exact ⟨m, hm, fun name => hlook name⟩

/-- Witness for C9: for the duplicate arguments "x:a", "x:b" parsing
succeeds and the mapping resolves "x" to the later path "b". -/
theorem C9_witness :
    (∀ a ∈ ([['x', ':', 'a'], ['x', ':', 'b']] : List (List Char)), ':' ∈ a) ∧
    (∃ m, parse_inputs [] [['x', ':', 'a'], ['x', ':', 'b']] = some m ∧
      ∀ name, map_lookup m name =
        spec_last_wins [['x', ':', 'a'], ['x', ':', 'b']] name) :=
  ⟨by decide, C9_duplicate_names_last_wins _ (by decide)⟩

/-- C10: an argument whose first colon is at position 0 (empty name) or at
the last position (empty path) is accepted, not a usage error: it splits
into an empty name or empty path, and `main` proceeds to deploy with the
corresponding mapping entry created. -/
theorem C10_empty_name_or_path_accepted (n p prog mp : List Char)
    (h : ':' ∉ n) :
    split_arg (':' :: p) = some ([], p) ∧
    split_arg (n ++ [':']) = some (n, []) ∧
    main_model (prog :: mp :: [':' :: p]) =
      MainResult.deployed mp [([], p)] Mode.infer ∧
    main_model (prog :: mp :: [n ++ [':']]) =
      MainResult.deployed mp [(n, [])] Mode.infer := by
  have h1 : split_arg (':' :: p) = some ([], p) := by
    rw [split_arg_cons, if_pos rfl]
  have h2 : split_arg (n ++ [':']) = some (n, []) :=
    (split_arg_eq_some (n ++ [':']) n []).mpr ⟨rfl, h⟩
  refine ⟨h1, h2, ?_, ?_⟩
  · simp [main_model, parse_inputs, h1, map_insert, DeployGraphExecutor_mode]
  · simp [main_model, parse_inputs, h2, map_insert, DeployGraphExecutor_mode]

/-- Witness for C10: ":f" yields the entry ("", "f") and "x:" yields the
entry ("x", ""), both deployed in inference mode. -/
theorem C10_witness :
    (':' ∉ (['x'] : List Char)) ∧
    (split_arg (':' :: ['f']) = some ([], ['f']) ∧
     split_arg (['x'] ++ [':']) = some (['x'], []) ∧
     main_model [['p'], ['m'], ':' :: ['f']] =
       MainResult.deployed ['m'] [([], ['f'])] Mode.infer ∧
     main_model [['p'], ['m'], ['x'] ++ [':']] =
       MainResult.deployed ['m'] [(['x'], [])] Mode.infer) :=
  ⟨by decide,
   C10_empty_name_or_path_accepted ['x'] ['f'] ['p'] ['m'] (by decide)⟩

end TvmTimeEval
